import Mathlib

/-!
Verification development for the cryptotranny protocol stack (src/index.js):
a length-prefix framing layer (`NetConn` over `length-prefixed-stream`), a
per-message public-key authenticated-encryption envelope (`CryptoComm` over
`tweetnacl`'s box/boxOpen), and a one-shot cleartext handshake
(`TrannyServer`/`TrannyClient`).

Byte sequences are modelled as `List Nat` with each element below 256 where
it matters.  The textual wire format (JSON envelope with base64 fields) is
embedded at the character level; ASCII characters correspond one-to-one to
wire bytes via `Char.toNat`/`Char.ofNat`.
-/

/-- Wire bytes: natural numbers, each below 256 on well-formed data. -/
abbrev Bytes := List Nat

/-! ## Base64 (Node `Buffer.toString('base64')` / `Buffer.from(str,'base64')`) -/

/-- The standard base64 alphabet used by Node buffers. -/
def b64Alphabet : List Char :=
  "ABCDEFGHIJKLMNOPQRSTUVWXYZabcdefghijklmnopqrstuvwxyz0123456789+/".toList

/-- Character for a sextet value (0..63). -/
def sextetChar (n : Nat) : Char := b64Alphabet.getD n 'A'

/-- Sextet value of a character, `none` when outside the alphabet. -/
def charSextet (c : Char) : Option Nat := b64Alphabet.indexOf? c

/-- Base64-encode a byte list, with `=` padding, as Node's
`Buffer.toString('base64')` does. -/
def b64Encode : Bytes → List Char
  | [] => []
  | [a] => [sextetChar (a / 4), sextetChar (a % 4 * 16), '=', '=']
  | [a, b] => [sextetChar (a / 4), sextetChar (a % 4 * 16 + b / 16),
               sextetChar (b % 16 * 4), '=']
  | a :: b :: c :: rest =>
      sextetChar (a / 4) :: sextetChar (a % 4 * 16 + b / 16) ::
      sextetChar (b % 16 * 4 + c / 64) :: sextetChar (c % 64) :: b64Encode rest

/-- Reassemble bytes from a sextet stream; a trailing lone sextet is dropped,
matching Node's lenient base64 decoder. -/
def b64DecodeSextets : List Nat → Bytes
  | s1 :: s2 :: s3 :: s4 :: rest =>
      (s1 * 4 + s2 / 16) :: (s2 % 16 * 16 + s3 / 4) :: (s3 % 4 * 64 + s4) ::
      b64DecodeSextets rest
  | [s1, s2, s3] => [s1 * 4 + s2 / 16, s2 % 16 * 16 + s3 / 4]
  | [s1, s2] => [s1 * 4 + s2 / 16]
  | _ => []

/-- Node's base64 decoder (`Buffer.from(str,'base64')`): it never fails,
silently skipping characters outside the alphabet (including `=` padding). -/
def b64Decode (s : List Char) : Bytes := b64DecodeSextets (s.filterMap charSextet)

/-! ## ASCII characters as wire bytes -/

/-- UTF-8 encoding of an ASCII character list (all envelope characters are
ASCII, where UTF-8 is the identity on code points). -/
def charsToBytes (s : List Char) : Bytes := s.map Char.toNat

/-- Decoding wire bytes to characters (`data.toString()` in the source);
faithful on the ASCII range the envelope uses. -/
def bytesToChars (bs : Bytes) : List Char := bs.map Char.ofNat

/-! ## The JSON envelope (`JSON.stringify`/`JSON.parse` in `CryptoComm`)

`CryptoComm.send` builds `JSON.stringify({data: b64, nonce: b64})`, which
for these two string fields is exactly the character sequence
`{"data":"<b64>","nonce":"<b64>"}`.  `CryptoComm._onData` runs `JSON.parse`
and reads the `data` and `nonce` fields; the parser below models the JSON
subset the envelope occupies.  A parse failure models the exception thrown
by `JSON.parse` on malformed text, or by `Buffer.from(undefined,'base64')`
when a required field is absent. -/

/-- The literal characters before the `data` value. -/
def envLit1 : List Char := "\x7b\"data\":\"".toList

/-- The literal characters between the `data` and `nonce` values. -/
def envLit2 : List Char := "\",\"nonce\":\"".toList

/-- The literal characters after the `nonce` value. -/
def envLit3 : List Char := "\"\x7d".toList

/-- `JSON.stringify({data: base64(ct), nonce: base64(nonce)})` as characters. -/
def encodeEnvelope (ct nonce : Bytes) : List Char :=
  envLit1 ++ b64Encode ct ++ envLit2 ++ b64Encode nonce ++ envLit3

/-- The encoded envelope as wire bytes (`Buffer.from(JSON.stringify(...))`). -/
def encodeEnvelopeBytes (ct nonce : Bytes) : Bytes :=
  charsToBytes (encodeEnvelope ct nonce)

/-- Consume a required literal; fails when the input does not start with it. -/
def takeLit (lit s : List Char) : Option (List Char) :=
  if s.take lit.length = lit then some (s.drop lit.length) else none

/-- Consume a JSON string body up to its closing quote. -/
def takeStr : List Char → Option (List Char × List Char)
  | [] => none
  | '"' :: rest => some ([], rest)
  | c :: rest => (takeStr rest).map (fun p => (c :: p.1, p.2))

/-- Parse the textual envelope, returning the raw `data` and `nonce` string
values; `none` models the exception `JSON.parse` (or the subsequent field
access) throws in `_onData` on malformed or field-missing input. -/
def parseEnvelope (s : List Char) : Option (List Char × List Char) := do
  let s1 ← takeLit envLit1 s
  let (dataStr, s2) ← takeStr s1
  let s3 ← takeLit (envLit2.drop 1) s2
  let (nonceStr, s4) ← takeStr s3
  if s4 = envLit3.drop 1 then pure (dataStr, nonceStr) else none

/-- Parse an incoming frame's bytes as an envelope (`JSON.parse(data.toString())`). -/
def parseEnvelopeBytes (bs : Bytes) : Option (List Char × List Char) :=
  parseEnvelope (bytesToChars bs)

/-! ## The crypto collaborator

Modelled from the spec: the external crypto primitive collaborator contract
(`tweetnacl`) — `Box(message, nonce, theirPublicKey, ourSecretKey)` is
authenticated encryption over the Diffie-Hellman shared secret of the two
keys, and `BoxOpen` inverts it exactly when the complementary key pair and
the same nonce reproduce the same shared secret; public/secret keys are 32
bytes, nonces 24 bytes.  The model makes the ciphertext an authentication
tag (derived from the shared secret and the nonce) followed by the
plaintext; `BoxOpen` checks the tag and strips it, failing (`none`) on any
mismatch, which is how a wrong key or tampered ciphertext/nonce surfaces. -/

/-- Modelled from the spec: public key derived from a secret key by the
external `nacl.box.keyPair` primitive (scalar multiplication of the base
point; here a per-byte doubling so that the Diffie-Hellman exchange
commutes). -/
def curvePub (sk : Bytes) : Bytes := sk.map (fun b => 2 * b % 256)

/-- Modelled from the spec: the Diffie-Hellman shared secret of one side's
public key and the other side's secret key. -/
def sharedKey (pk sk : Bytes) : Bytes :=
  List.zipWith (fun p s => (p + 2 * s) % 256) pk sk

/-- Modelled from the spec: the 16-byte authentication tag `Box` prepends,
derived from the shared secret and the nonce. -/
def boxTag (pk sk nonce : Bytes) : Bytes :=
  (List.zipWith (fun a b => (a + b) % 256) (sharedKey pk sk) nonce).take 16

/-- Modelled from the spec: `nacl.box` — authenticated encryption; tag
followed by the message. -/
def box (m nonce pk sk : Bytes) : Bytes := boxTag pk sk nonce ++ m

/-- Modelled from the spec: `nacl.box.open` — verify the tag and strip it;
`null` (here `none`) on authentication failure. -/
def boxOpen (ct nonce pk sk : Bytes) : Option Bytes :=
  let tag := boxTag pk sk nonce
  if ct.take tag.length = tag then some (ct.drop tag.length) else none

/-- `nacl.box.nonceLength`. -/
def nonceLength : Nat := 24

/-- A key pair in cryptotranny formatting (`genKeyPair` in the source). -/
structure KeyPair where
  pk : Bytes
  sk : Bytes

/-- `genKeyPair`: generate a pair from the primitive's secret-key randomness. -/
def genKeyPair (sk : Bytes) : KeyPair := ⟨curvePub sk, sk⟩

/-! ## `CryptoComm` (encrypted channel)

`src/index.js` contains two embedded copies of the module; the `_onData`
handlers of the two copies differ.  Version 1 (lines 85-102) checks
`decryptedData == null` and silently returns; version 2 (lines 251-264)
emits the `message` event unconditionally, with a `null` payload when
decryption failed.  Message events are modelled as `Option Bytes` payloads
(`none` is the `null` payload only version 2 can emit). -/

/-- The exception `_onData` lets escape when the envelope is malformed
(`JSON.parse` throws a SyntaxError, or `Buffer.from(undefined,'base64')`
throws a TypeError on a missing field). -/
inductive RxError
  | parseFail
deriving DecidableEq, Repr

/-- `CryptoComm._onData`, version 1 (lines 85-102): parse the envelope,
base64-decode the fields, attempt `boxOpen`; on failure return without
emitting; on success emit one `message` event with the plaintext. -/
def onDataV1 (theirPk ourSk : Bytes) (frame : Bytes) :
    Except RxError (List (Option Bytes)) :=
  match parseEnvelopeBytes frame with
  | none => .error .parseFail
  | some (dataStr, nonceStr) =>
    match boxOpen (b64Decode dataStr) (b64Decode nonceStr) theirPk ourSk with
    | none => .ok []
    | some m => .ok [some m]

/-- `CryptoComm._onData`, version 2 (lines 251-264): identical up to
`boxOpen`, but emits the `message` event unconditionally, so a failed
decryption is delivered as a `null` payload. -/
def onDataV2 (theirPk ourSk : Bytes) (frame : Bytes) :
    Except RxError (List (Option Bytes)) :=
  match parseEnvelopeBytes frame with
  | none => .error .parseFail
  | some (dataStr, nonceStr) =>
    .ok [boxOpen (b64Decode dataStr) (b64Decode nonceStr) theirPk ourSk]

/-- `CryptoComm.send` with the nonce made explicit: encrypt with `box`,
base64 the ciphertext and nonce, JSON-encode, and hand the bytes to the
underlying `NetConn` as one frame. -/
def sendFrame (m nonce theirPk ourSk : Bytes) : Bytes :=
  encodeEnvelopeBytes (box m nonce theirPk ourSk) nonce

/-- `CryptoComm.send` as written: draw `nacl.box.nonceLength` bytes from the
random source (modelled as the stream `r` the generator would produce),
then build and send exactly one frame. -/
def channelSend (r m theirPk ourSk : Bytes) : List Bytes :=
  [sendFrame m (r.take nonceLength) theirPk ourSk]

/-- The channel's only mutable observable: whether its underlying connection
has been destroyed.  `_onData` never touches it. -/
structure ChanState where
  destroyed : Bool
deriving DecidableEq, Repr

/-- Feed a list of incoming frames through version 1's `_onData`, collecting
the delivered message events and the final state; a thrown parse exception
aborts the run (nothing in `_onData` catches it). -/
def runV1 (theirPk ourSk : Bytes) (s : ChanState) (frames : List Bytes) :
    Except RxError (ChanState × List (Option Bytes)) :=
  match frames with
  | [] => .ok (s, [])
  | f :: rest =>
    match onDataV1 theirPk ourSk f with
    | .error e => .error e
    | .ok evs =>
      match runV1 theirPk ourSk s rest with
      | .error e => .error e
      | .ok (s2, evs2) => .ok (s2, evs ++ evs2)

/-! ## Handshake: `TrannyServer` / `TrannyClient` -/

/-- `TrannyServer`'s per-connection handler: the first frame, whatever its
content or length, becomes `theirPk` of a new `CryptoComm` bound to the
server's secret key, which is emitted as the `client` event; every later
frame belongs to that channel.  `none` when the connection produces no
frame at all (the `once('data')` handler never fires). -/
def serverOnConnection (ourSk : Bytes) (frames : List Bytes) :
    Option ((Bytes × Bytes) × List Bytes) :=
  match frames with
  | [] => none
  | f :: rest => some ((f, ourSk), rest)

/-- `TrannyClient`'s outgoing wire: the constructor sends `keyPair.pk` raw
as the first frame, before the `CryptoComm` it becomes sends anything; each
subsequent `send(m)` (with its drawn nonce) contributes one envelope frame. -/
def clientWireFrames (kp : KeyPair) (theirPk : Bytes)
    (sends : List (Bytes × Bytes)) : List Bytes :=
  kp.pk :: sends.map (fun p => sendFrame p.1 p.2 theirPk kp.sk)

/-! ## Length-prefix framing (`NetConn` over `length-prefixed-stream`)

Modelled from the spec: the external framing collaborator
(`length-prefixed-stream`) — a varint length followed by that many payload
bytes per frame; the decoder buffers until a frame is complete and yields
it.  The spec records that the original behavior trusts any claimed length:
no maximum frame size exists anywhere in the stack, and the decoder has no
error outcome for an oversized claim. -/

/-- Varint (base-128, low group first, high bit = continuation) encoder used
by the length prefix. -/
def varintEncode (n : Nat) : Bytes :=
  if h : n < 128 then [n] else (n % 128 + 128) :: varintEncode (n / 128)
decreasing_by exact Nat.div_lt_self (by omega) (by omega)

/-- Varint decoder: claimed length plus remaining bytes, `none` while the
prefix is still incomplete. -/
def varintDecode : Bytes → Option (Nat × Bytes)
  | [] => none
  | b :: rest =>
    if b < 128 then some (b, rest)
    else (varintDecode rest).map (fun p => (b % 128 + 128 * p.1, p.2))

/-- Decoder loop: read a claimed length, and once that many bytes have
arrived yield them as one frame; any claimed length is trusted.  Fuel is
the input length, ample since every frame consumes at least one byte. -/
def lpDecodeAux : Nat → Bytes → List Bytes
  | 0, _ => []
  | fuel + 1, bs =>
    match varintDecode bs with
    | none => []
    | some (n, rest) =>
      if n ≤ rest.length then rest.take n :: lpDecodeAux fuel (rest.drop n)
      else []

/-- Frames the decoder yields from a byte stream (incomplete trailing data
stays buffered, yielding nothing). -/
def lpDecode (bs : Bytes) : List Bytes := lpDecodeAux bs.length bs

/-! ## Connection events (`NetConn` / `CryptoComm` lifecycle)

`NetConn._listen` forwards every decoded frame as a `data` event and the
socket's `close` event as one `disconnected` event; `CryptoComm._listen`
forwards `disconnected` and turns `data` frames into `message` events via
`_onData`.  The socket itself is external; modelled from the spec: the
underlying stream emits `close` exactly once, emits nothing after `close`,
and `destroy()` closes the stream (so its `close` event still follows),
while a second `destroy()` on an already-destroyed socket does nothing. -/

/-- Happenings on one connection: bytes decoded into a frame, the socket's
terminal `close`, or the application calling `destroy()`. -/
inductive ConnEvent
  | sockData (bs : Bytes)
  | sockClose
  | appDestroy
deriving DecidableEq, Repr

/-- Events `NetConn` emits. -/
inductive OutEvent
  | frame (bs : Bytes)
  | disconnected
deriving DecidableEq, Repr

/-- `NetConn`'s state: whether `destroy()` has reached the socket. -/
structure NetConnState where
  destroyed : Bool
deriving DecidableEq, Repr

/-- `NetConn.destroy`: destroys the socket; destroying an already-destroyed
socket is a no-op, so the state simply becomes (stays) destroyed. -/
def netConnDestroy (_s : NetConnState) : NetConnState := ⟨true⟩

/-- `CryptoComm.destroy`: forwards to the underlying `NetConn`'s destroy. -/
def cryptoCommDestroy (s : NetConnState) : NetConnState := netConnDestroy s

/-- `NetConn._listen`'s handlers: a decoded frame is re-emitted as `data`,
the socket's `close` as `disconnected`; `destroy()` itself emits nothing. -/
def netConnHandle : ConnEvent → List OutEvent
  | .sockData bs => [.frame bs]
  | .sockClose => [.disconnected]
  | .appDestroy => []

/-- All events `NetConn` emits over a trace of connection happenings. -/
def runNetConn (t : List ConnEvent) : List OutEvent :=
  t.flatMap netConnHandle

/-- The `NetConn` events emitted by happenings after the first `destroy()`
call in a trace. -/
def eventsAfterDestroy : List ConnEvent → List OutEvent
  | [] => []
  | .appDestroy :: rest => runNetConn rest
  | _ :: rest => eventsAfterDestroy rest

/-- Modelled from the spec: the socket contract after `destroy()` — a
destroyed stream delivers no further bytes (no `sockData`), though its
`close` event (and redundant `destroy()` calls) may still follow. -/
def postDestroyOk : List ConnEvent → Bool
  | [] => true
  | .appDestroy :: rest =>
      rest.all (fun e => match e with | .sockData _ => false | _ => true)
  | _ :: rest => postDestroyOk rest

/-- Events `CryptoComm` surfaces to the application. -/
inductive CommEvent
  | message (m : Option Bytes)
  | disconnected
  | fault (e : RxError)
deriving DecidableEq, Repr

/-- `CryptoComm._listen`'s handlers over `NetConn` output (version 1
`_onData` for frames): `disconnected` is forwarded; a frame yields its
message events, or a `fault` when `_onData` throws. -/
def commHandle (theirPk ourSk : Bytes) : OutEvent → List CommEvent
  | .frame bs =>
    match onDataV1 theirPk ourSk bs with
    | .error e => [.fault e]
    | .ok evs => evs.map .message
  | .disconnected => [.disconnected]

/-- All events `CryptoComm` surfaces over `NetConn` output. -/
def runComm (theirPk ourSk : Bytes) (outs : List OutEvent) : List CommEvent :=
  outs.flatMap (commHandle theirPk ourSk)

/-! ## Codec lemmas -/

/-- Decoding inverts encoding on each base64 alphabet position. -/
theorem sextet_round : ∀ n : Fin 64, charSextet (sextetChar n.val) = some n.val := by
  decide

/-- Padding characters are skipped by the lenient decoder. -/
theorem charSextet_pad : charSextet '=' = none := by decide

/-- Convenience form of `sextet_round` for bounded naturals. -/
theorem charSextet_sextetChar (n : Nat) (h : n < 64) :
    charSextet (sextetChar n) = some n := sextet_round ⟨n, h⟩

/-- The lenient base64 decoder inverts the encoder on genuine bytes. -/
theorem b64_decode_encode : ∀ bs : Bytes, (∀ b ∈ bs, b < 256) →
    b64Decode (b64Encode bs) = bs
  | [], _ => rfl
  | [a], h => by
    have ha : a < 256 := h a (by simp)
    simp only [b64Decode, b64Encode, List.filterMap]
    rw [charSextet_sextetChar _ (by omega), charSextet_sextetChar _ (by omega),
      charSextet_pad]
    simp only [b64DecodeSextets, List.cons.injEq, and_true]
    omega
  | [a, b], h => by
    have ha : a < 256 := h a (by simp)
    have hb : b < 256 := h b (by simp)
    simp only [b64Decode, b64Encode, List.filterMap]
    rw [charSextet_sextetChar _ (by omega), charSextet_sextetChar _ (by omega),
      charSextet_sextetChar _ (by omega), charSextet_pad]
    simp only [b64DecodeSextets, List.cons.injEq, and_true]
    omega
  | a :: b :: c :: rest, h => by
    have ha : a < 256 := h a (by simp)
    have hb : b < 256 := h b (by simp)
    have hc : c < 256 := h c (by simp)
    have ih := b64_decode_encode rest (fun x hx => h x (by simp [hx]))
    simp only [b64Decode, b64Encode, List.filterMap] at ih ⊢
    rw [charSextet_sextetChar _ (by omega), charSextet_sextetChar _ (by omega),
      charSextet_sextetChar _ (by omega), charSextet_sextetChar _ (by omega)]
    simp only [b64DecodeSextets, List.cons.injEq]
    exact ⟨by omega, by omega, by omega, ih⟩

/-- Every encoded character lies in the alphabet (the default is `'A'`,
itself in the alphabet). -/
theorem sextetChar_mem (n : Nat) : sextetChar n ∈ b64Alphabet := by
  unfold sextetChar
  rw [List.getD_eq_getElem?_getD]
  cases h : b64Alphabet[n]? with
  | none => simp only [Option.getD_none]; decide
  | some c =>
    simp only [Option.getD_some]
    exact List.getElem?_mem h

/-- Every character the encoder produces is an alphabet character or the
padding character. -/
theorem mem_b64Encode (c : Char) : ∀ bs : Bytes, c ∈ b64Encode bs →
    c ∈ b64Alphabet ∨ c = '='
  | [], h => by simp [b64Encode] at h
  | [a], h => by
    simp only [b64Encode, List.mem_cons, List.not_mem_nil, or_false] at h
    rcases h with h | h | h | h
    all_goals first
      | exact Or.inl (h ▸ sextetChar_mem _)
      | exact Or.inr h
  | [a, b], h => by
    simp only [b64Encode, List.mem_cons, List.not_mem_nil, or_false] at h
    rcases h with h | h | h | h
    all_goals first
      | exact Or.inl (h ▸ sextetChar_mem _)
      | exact Or.inr h
  | a :: b :: d :: rest, h => by
    simp only [b64Encode, List.mem_cons] at h
    rcases h with h | h | h | h | h
    · exact Or.inl (h ▸ sextetChar_mem _)
    · exact Or.inl (h ▸ sextetChar_mem _)
    · exact Or.inl (h ▸ sextetChar_mem _)
    · exact Or.inl (h ▸ sextetChar_mem _)
    · exact mem_b64Encode c rest h

/-- Base64 text never contains a double quote, so it sits safely inside a
JSON string. -/
theorem b64Encode_no_quote (bs : Bytes) : '"' ∉ b64Encode bs := by
  intro h
  rcases mem_b64Encode _ bs h with h2 | h2
  · revert h2; decide
  · revert h2; decide

/-- Literal consumption succeeds exactly on its own literal. -/
theorem takeLit_append (lit rest : List Char) :
    takeLit lit (lit ++ rest) = some rest := by
  simp [takeLit, List.take_left, List.drop_left]

/-- Unfolding of `takeStr` on a non-quote head character. -/
theorem takeStr_cons_ne (c : Char) (l : List Char) (h : c ≠ '"') :
    takeStr (c :: l) = (takeStr l).map (fun p => (c :: p.1, p.2)) := by
  rw [takeStr.eq_def]
  split
  · simp_all
  · simp_all
  · rename_i c2 rest heq
    rw [List.cons.injEq] at heq
    rw [heq.1, heq.2]

/-- String-body consumption stops at the first quote. -/
theorem takeStr_append (pre rest : List Char) (h : '"' ∉ pre) :
    takeStr (pre ++ '"' :: rest) = some (pre, rest) := by
  induction pre with
  | nil => simp [takeStr]
  | cons c cs ih =>
    have hc : c ≠ '"' := fun hq => h (hq ▸ List.mem_cons_self c cs)
    have hcs : '"' ∉ cs := fun hm => h (List.mem_cons_of_mem c hm)
    rw [List.cons_append, takeStr_cons_ne c _ hc, ih hcs]
    rfl

/-- Parsing inverts envelope encoding, recovering the two base64 fields. -/
theorem parseEnvelope_encode (ct nonce : Bytes) :
    parseEnvelope (encodeEnvelope ct nonce) =
      some (b64Encode ct, b64Encode nonce) := by
  have hsplit : encodeEnvelope ct nonce =
      envLit1 ++ (b64Encode ct ++ '"' ::
        (envLit2.drop 1 ++ (b64Encode nonce ++ '"' :: envLit3.drop 1))) := by
    simp only [encodeEnvelope, List.append_assoc]
    norm_num
    rfl
  rw [parseEnvelope, hsplit]
  simp only [takeLit_append, takeStr_append _ _ (b64Encode_no_quote ct),
    takeStr_append _ _ (b64Encode_no_quote nonce), Option.bind_eq_bind,
    Option.some_bind]
  simp

/-- ASCII characters survive the trip through wire bytes. -/
theorem bytesToChars_charsToBytes (s : List Char) :
    bytesToChars (charsToBytes s) = s := by
  simp only [bytesToChars, charsToBytes, List.map_map]
  rw [show Char.ofNat ∘ Char.toNat = id from funext Char.ofNat_toNat]
  exact List.map_id s

/-- Byte-level envelope parsing inverts byte-level envelope encoding. -/
theorem parseEnvelopeBytes_encode (ct nonce : Bytes) :
    parseEnvelopeBytes (encodeEnvelopeBytes ct nonce) =
      some (b64Encode ct, b64Encode nonce) := by
  rw [parseEnvelopeBytes, encodeEnvelopeBytes, bytesToChars_charsToBytes,
    parseEnvelope_encode]

/-! ## Crypto lemmas -/

/-- Elements produced by a mod-256 zip are genuine bytes. -/
theorem mem_zipWith_mod {f : Nat → Nat → Nat} (hf : ∀ a b, f a b = (a + b) % 256)
    (x : Nat) : ∀ l1 l2 : Bytes, x ∈ List.zipWith f l1 l2 → x < 256
  | [], _, h => by simp at h
  | _ :: _, [], h => by simp at h
  | a :: l1, b :: l2, h => by
    simp only [List.zipWith_cons_cons, List.mem_cons] at h
    rcases h with h | h
    · rw [h, hf]; omega
    · exact mem_zipWith_mod hf x l1 l2 h

/-- Every byte of a boxed message is below 256 when the plaintext's are. -/
theorem box_bytes_lt (m nonce pk sk : Bytes) (hm : ∀ b ∈ m, b < 256) :
    ∀ b ∈ box m nonce pk sk, b < 256 := by
  intro b hb
  rcases List.mem_append.mp hb with h | h
  · exact mem_zipWith_mod (fun _ _ => rfl) b _ _ (List.mem_of_mem_take h)
  · exact hm b h

/-- Diffie-Hellman agreement in the model: both sides derive the same
shared secret from the opposite public key and their own secret key. -/
theorem sharedKey_comm (skA skB : Bytes) :
    sharedKey (curvePub skB) skA = sharedKey (curvePub skA) skB := by
  unfold sharedKey curvePub
  rw [List.zipWith_map_left, List.zipWith_map_left,
    List.zipWith_comm _ skA skB]
  congr 1
  funext a b
  omega

/-- Both sides compute the same authentication tag for the same nonce. -/
theorem boxTag_comm (skA skB nonce : Bytes) :
    boxTag (curvePub skB) skA nonce = boxTag (curvePub skA) skB nonce := by
  unfold boxTag
  rw [sharedKey_comm]

/-- Opening with the complementary key pair succeeds and recovers the
message. -/
theorem boxOpen_box (m nonce skA skB : Bytes) :
    boxOpen (box m nonce (curvePub skB) skA) nonce (curvePub skA) skB =
      some m := by
  unfold boxOpen box
  rw [boxTag_comm skA skB nonce]
  simp [List.take_left, List.drop_left]

/-! ## Channel lemmas -/

/-- A frame built by `send` for the peer decrypts on the peer's channel to
exactly the plaintext, delivered as one `message` event. -/
theorem onDataV1_sendFrame (m nonce skA skB : Bytes)
    (hm : ∀ b ∈ m, b < 256) (hn : ∀ b ∈ nonce, b < 256) :
    onDataV1 (curvePub skA) skB (sendFrame m nonce (curvePub skB) skA) =
      .ok [some m] := by
  simp only [onDataV1, sendFrame, parseEnvelopeBytes_encode,
    b64_decode_encode _ (box_bytes_lt m nonce (curvePub skB) skA hm),
    b64_decode_encode _ hn, boxOpen_box]

/-! ## Framing lemmas -/

/-- The varint decoder inverts the encoder, leaving trailing bytes intact. -/
theorem varintDecode_encode (n : Nat) : ∀ rest : Bytes,
    varintDecode (varintEncode n ++ rest) = some (n, rest) := by
  intro rest
  induction n using varintEncode.induct with
  | case1 n h =>
    rw [varintEncode.eq_def]
    simp only [h, dite_true, List.singleton_append]
    simp [varintDecode, h]
  | case2 n h ih =>
    rw [varintEncode.eq_def]
    simp only [h, dite_false, List.cons_append]
    rw [varintDecode.eq_def]
    have hge : ¬(n % 128 + 128 < 128) := by omega
    have harith : n % 128 + 128 * (n / 128) = n := by omega
    simp [hge, ih, harith]

/-- The decoder yields nothing from an empty buffer. -/
theorem lpDecodeAux_nil (fuel : Nat) : lpDecodeAux fuel [] = [] := by
  cases fuel with
  | zero => rfl
  | succ k => simp [lpDecodeAux, varintDecode]

/-- One complete length-prefixed frame decodes to itself, whatever its
claimed length: the decoder enforces no maximum. -/
theorem lpDecode_single (n : Nat) (p : Bytes) (hp : p.length = n) :
    lpDecode (varintEncode n ++ p) = [p] := by
  obtain ⟨k, hk⟩ : ∃ k, (varintEncode n ++ p).length = k + 1 := by
    refine ⟨(varintEncode n ++ p).length - 1, ?_⟩
    have hlen : 1 ≤ (varintEncode n).length := by
      rw [varintEncode.eq_def]
      split <;> simp
    rw [List.length_append]
    omega
  rw [lpDecode, hk]
  simp only [lpDecodeAux, varintDecode_encode]
  have hle : n ≤ p.length := hp.ge
  simp only [hle, if_true, ite_true]
  rw [← hp, List.take_length, List.drop_length, lpDecodeAux_nil]

/-! ## Event-trace lemmas -/

/-- A trace without a socket `close` never makes `NetConn` emit
`disconnected`. -/
theorem runNetConn_no_disc : ∀ pre : List ConnEvent,
    ConnEvent.sockClose ∉ pre → OutEvent.disconnected ∉ runNetConn pre
  | [], _ => by simp [runNetConn]
  | e :: rest, h => by
    have hrest : ConnEvent.sockClose ∉ rest :=
      fun hm => h (List.mem_cons_of_mem e hm)
    have hne : e ≠ ConnEvent.sockClose :=
      fun he => h (he ▸ List.mem_cons_self e rest)
    intro hmem
    rw [runNetConn, List.flatMap_cons] at hmem
    rcases List.mem_append.mp hmem with hm | hm
    · cases e with
      | sockData bs => simp [netConnHandle] at hm
      | sockClose => exact hne rfl
      | appDestroy => simp [netConnHandle] at hm
    · exact runNetConn_no_disc rest hrest hm

/-- Frame handling in `CryptoComm` never fabricates a `disconnected`
event. -/
theorem commHandle_frame_no_disc (theirPk ourSk bs : Bytes) :
    CommEvent.disconnected ∉ commHandle theirPk ourSk (.frame bs) := by
  intro h
  rw [commHandle] at h
  rcases honk : onDataV1 theirPk ourSk bs with e | evs <;> rw [honk] at h
  · simp at h
  · rcases List.mem_map.mp h with ⟨x, _, hx⟩
    exact CommEvent.noConfusion hx

/-- `CryptoComm` surfaces exactly as many `disconnected` events as
`NetConn` hands it. -/
theorem runComm_count_disc (theirPk ourSk : Bytes) : ∀ outs : List OutEvent,
    (runComm theirPk ourSk outs).count CommEvent.disconnected =
      outs.count OutEvent.disconnected
  | [] => rfl
  | e :: rest => by
    rw [runComm, List.flatMap_cons, List.count_append]
    have ih := runComm_count_disc theirPk ourSk rest
    rw [runComm] at ih
    rw [ih, List.count_cons]
    cases e with
    | frame bs =>
      have hno := commHandle_frame_no_disc theirPk ourSk bs
      rw [List.count_eq_zero.mpr hno]
      simp
    | disconnected =>
      simp [commHandle, List.count_cons]
      omega

/-! ## Claims -/

/-- C1: for every byte sequence `m`, every 24-byte nonce, and every two key
pairs A and B, `BoxOpen` applied to `Box(m, nonce, B.pk, A.sk)` with
`(nonce, A.pk, B.sk)` succeeds and returns exactly `m`; consequently a
frame sent on a channel bound to `(B.pk, A.sk)` is delivered byte-for-byte
identical (as one `message` event) by the peer channel bound to
`(A.pk, B.sk)`. -/
theorem c1_box_roundtrip (m nonce skA skB : Bytes)
    (hm : ∀ b ∈ m, b < 256) (hn : ∀ b ∈ nonce, b < 256)
    (_hnl : nonce.length = 24) :
    boxOpen (box m nonce (genKeyPair skB).pk (genKeyPair skA).sk) nonce
        (genKeyPair skA).pk (genKeyPair skB).sk = some m ∧
    onDataV1 (genKeyPair skA).pk (genKeyPair skB).sk
        (sendFrame m nonce (genKeyPair skB).pk (genKeyPair skA).sk) =
      Except.ok [some m] :=
  ⟨boxOpen_box m nonce skA skB, onDataV1_sendFrame m nonce skA skB hm hn⟩

/-- Witness for C1 at a concrete message, nonce and key pairs. -/
theorem c1_box_roundtrip_witness :
    ((∀ b ∈ [104, 105], b < 256) ∧ (∀ b ∈ List.range 24, b < 256) ∧
      (List.range 24).length = 24) ∧
    (boxOpen (box [104, 105] (List.range 24)
          (genKeyPair (List.replicate 32 9)).pk
          (genKeyPair (List.replicate 32 4)).sk) (List.range 24)
        (genKeyPair (List.replicate 32 4)).pk
        (genKeyPair (List.replicate 32 9)).sk = some [104, 105] ∧
      onDataV1 (genKeyPair (List.replicate 32 4)).pk
          (genKeyPair (List.replicate 32 9)).sk
          (sendFrame [104, 105] (List.range 24)
            (genKeyPair (List.replicate 32 9)).pk
            (genKeyPair (List.replicate 32 4)).sk) =
        Except.ok [some [104, 105]]) :=
  ⟨⟨by decide, by decide, by decide⟩,
    c1_box_roundtrip [104, 105] (List.range 24) (List.replicate 32 4)
      (List.replicate 32 9) (by decide) (by decide) (by decide)⟩

/-- C2: a well-formed envelope frame on which `BoxOpen` fails is silently
dropped by version 1's `_onData`: no message event, no exception, no state
change, and the run over any subsequent frames is exactly what it would
have been had the failing frame never arrived. -/
theorem c2_auth_failure_silent (theirPk ourSk f : Bytes) (rest : List Bytes)
    (s : ChanState) (d n : List Char)
    (hp : parseEnvelopeBytes f = some (d, n))
    (_hnonce : (b64Decode n).length = 24)
    (hfail : boxOpen (b64Decode d) (b64Decode n) theirPk ourSk = none) :
    onDataV1 theirPk ourSk f = Except.ok [] ∧
    runV1 theirPk ourSk s (f :: rest) = runV1 theirPk ourSk s rest := by
  have h1 : onDataV1 theirPk ourSk f = Except.ok [] := by
    simp only [onDataV1, hp, hfail]
  refine ⟨h1, ?_⟩
  rw [runV1, h1]
  rcases hr : runV1 theirPk ourSk s rest with e | p
  · rfl
  · rcases p with ⟨s2, evs⟩
    simp

/-- Witness for C2: a concrete envelope frame whose ciphertext carries a
wrong authentication tag is dropped and leaves the run untouched. -/
theorem c2_auth_failure_silent_witness :
    (parseEnvelopeBytes
        (encodeEnvelopeBytes (List.replicate 16 0) (List.replicate 24 0)) =
      some (b64Encode (List.replicate 16 0), b64Encode (List.replicate 24 0)) ∧
      (b64Decode (b64Encode (List.replicate 24 0))).length = 24 ∧
      boxOpen (b64Decode (b64Encode (List.replicate 16 0)))
        (b64Decode (b64Encode (List.replicate 24 0)))
        (List.replicate 32 1) (List.replicate 32 0) = none) ∧
    (onDataV1 (List.replicate 32 1) (List.replicate 32 0)
        (encodeEnvelopeBytes (List.replicate 16 0) (List.replicate 24 0)) =
      Except.ok [] ∧
      runV1 (List.replicate 32 1) (List.replicate 32 0) ⟨false⟩
          [encodeEnvelopeBytes (List.replicate 16 0) (List.replicate 24 0),
            encodeEnvelopeBytes [1, 2] [3]] =
        runV1 (List.replicate 32 1) (List.replicate 32 0) ⟨false⟩
          [encodeEnvelopeBytes [1, 2] [3]]) :=
  ⟨⟨by decide, by decide, by decide⟩,
    c2_auth_failure_silent (List.replicate 32 1) (List.replicate 32 0)
      (encodeEnvelopeBytes (List.replicate 16 0) (List.replicate 24 0))
      [encodeEnvelopeBytes [1, 2] [3]] ⟨false⟩
      (b64Encode (List.replicate 16 0)) (b64Encode (List.replicate 24 0))
      (by decide) (by decide) (by decide)⟩

/-- C3 (code-bug evidence): on a frame whose payload is not a parseable
envelope, `_onData` lets the `JSON.parse` exception escape — there is no
ProtocolError type and no channel close in the code; the only guarantee
that survives is that no message event is delivered. -/
theorem c3_malformed_frame_throws :
    onDataV1 (List.replicate 32 1) (List.replicate 32 0)
        (charsToBytes ("notjson".toList)) = Except.error RxError.parseFail ∧
    onDataV2 (List.replicate 32 1) (List.replicate 32 0)
        (charsToBytes ("notjson".toList)) = Except.error RxError.parseFail := by
  exact ⟨rfl, rfl⟩

/-- C4: `send` draws `nacl.box.nonceLength = 24` bytes from the random
source as the nonce, boxes the message with `(remotePk, localSk)`, encodes
the single textual structure with base64 `data` and `nonce` fields, and
passes it to the connection as exactly one frame; the envelope decodes
back to exactly that ciphertext and nonce. -/
theorem c4_send_steps (r m theirPk ourSk : Bytes)
    (hm : ∀ b ∈ m, b < 256) (hr : ∀ b ∈ r, b < 256) (hrl : 24 ≤ r.length) :
    (channelSend r m theirPk ourSk).length = 1 ∧
    (r.take nonceLength).length = 24 ∧
    channelSend r m theirPk ourSk =
      [encodeEnvelopeBytes (box m (r.take nonceLength) theirPk ourSk)
        (r.take nonceLength)] ∧
    parseEnvelopeBytes (sendFrame m (r.take nonceLength) theirPk ourSk) =
      some (b64Encode (box m (r.take nonceLength) theirPk ourSk),
        b64Encode (r.take nonceLength)) ∧
    b64Decode (b64Encode (box m (r.take nonceLength) theirPk ourSk)) =
      box m (r.take nonceLength) theirPk ourSk ∧
    b64Decode (b64Encode (r.take nonceLength)) = r.take nonceLength := by
  have hnb : ∀ b ∈ r.take nonceLength, b < 256 :=
    fun b hb => hr b (List.mem_of_mem_take hb)
  refine ⟨rfl, ?_, rfl, parseEnvelopeBytes_encode _ _,
    b64_decode_encode _ (box_bytes_lt _ _ _ _ hm), b64_decode_encode _ hnb⟩
  rw [List.length_take]
  simp only [nonceLength]
  omega

/-- Witness for C4 at a concrete randomness stream, message and keys. -/
theorem c4_send_steps_witness :
    ((∀ b ∈ [5, 6, 7], b < 256) ∧ (∀ b ∈ List.range 30, b < 256) ∧
      24 ≤ (List.range 30).length) ∧
    ((channelSend (List.range 30) [5, 6, 7] (List.replicate 32 2)
        (List.replicate 32 3)).length = 1 ∧
      ((List.range 30).take nonceLength).length = 24 ∧
      channelSend (List.range 30) [5, 6, 7] (List.replicate 32 2)
          (List.replicate 32 3) =
        [encodeEnvelopeBytes
          (box [5, 6, 7] ((List.range 30).take nonceLength)
            (List.replicate 32 2) (List.replicate 32 3))
          ((List.range 30).take nonceLength)] ∧
      parseEnvelopeBytes
          (sendFrame [5, 6, 7] ((List.range 30).take nonceLength)
            (List.replicate 32 2) (List.replicate 32 3)) =
        some (b64Encode
            (box [5, 6, 7] ((List.range 30).take nonceLength)
              (List.replicate 32 2) (List.replicate 32 3)),
          b64Encode ((List.range 30).take nonceLength)) ∧
      b64Decode (b64Encode
          (box [5, 6, 7] ((List.range 30).take nonceLength)
            (List.replicate 32 2) (List.replicate 32 3))) =
        box [5, 6, 7] ((List.range 30).take nonceLength)
          (List.replicate 32 2) (List.replicate 32 3) ∧
      b64Decode (b64Encode ((List.range 30).take nonceLength)) =
        (List.range 30).take nonceLength) :=
  ⟨⟨by decide, by decide, by decide⟩,
    c4_send_steps (List.range 30) [5, 6, 7] (List.replicate 32 2)
      (List.replicate 32 3) (by decide) (by decide) (by decide)⟩

/-- C5: the initiator's first outgoing frame is its raw local public key,
not wrapped in the envelope; the responder takes exactly the first frame of
a connection as the announced remote key, binds the emitted channel to it,
and that channel then delivers the initiator's messages byte-for-byte. -/
theorem c5_handshake (skA skB m nonce : Bytes)
    (hm : ∀ b ∈ m, b < 256) (hn : ∀ b ∈ nonce, b < 256) :
    (clientWireFrames (genKeyPair skA) (curvePub skB) [(m, nonce)]).head? =
      some (genKeyPair skA).pk ∧
    serverOnConnection skB
        (clientWireFrames (genKeyPair skA) (curvePub skB) [(m, nonce)]) =
      some (((genKeyPair skA).pk, skB),
        [sendFrame m nonce (curvePub skB) (genKeyPair skA).sk]) ∧
    onDataV1 (genKeyPair skA).pk skB
        (sendFrame m nonce (curvePub skB) (genKeyPair skA).sk) =
      Except.ok [some m] :=
  ⟨rfl, rfl, onDataV1_sendFrame m nonce skA skB hm hn⟩

/-- Witness for C5 at concrete keys, message and nonce. -/
theorem c5_handshake_witness :
    ((∀ b ∈ [65, 66], b < 256) ∧ (∀ b ∈ List.range 24, b < 256)) ∧
    ((clientWireFrames (genKeyPair (List.replicate 32 5))
          (curvePub (List.replicate 32 6)) [([65, 66], List.range 24)]).head? =
        some (genKeyPair (List.replicate 32 5)).pk ∧
      serverOnConnection (List.replicate 32 6)
          (clientWireFrames (genKeyPair (List.replicate 32 5))
            (curvePub (List.replicate 32 6)) [([65, 66], List.range 24)]) =
        some (((genKeyPair (List.replicate 32 5)).pk, List.replicate 32 6),
          [sendFrame [65, 66] (List.range 24) (curvePub (List.replicate 32 6))
            (genKeyPair (List.replicate 32 5)).sk]) ∧
      onDataV1 (genKeyPair (List.replicate 32 5)).pk (List.replicate 32 6)
          (sendFrame [65, 66] (List.range 24)
            (curvePub (List.replicate 32 6))
            (genKeyPair (List.replicate 32 5)).sk) =
        Except.ok [some [65, 66]]) :=
  ⟨⟨by decide, by decide⟩,
    c5_handshake (List.replicate 32 5) (List.replicate 32 6) [65, 66]
      (List.range 24) (by decide) (by decide)⟩

/-- C6 (code-bug evidence): the responder performs no length check on the
handshake frame — a 31-byte first frame is accepted as the remote public
key and a channel bound to it is emitted, with no error and no close. -/
theorem c6_no_handshake_length_check :
    (List.replicate 31 7).length ≠ 32 ∧
    serverOnConnection (List.replicate 32 0) [List.replicate 31 7] =
      some ((List.replicate 31 7, List.replicate 32 0), []) :=
  ⟨by decide, rfl⟩

/-- C7 (code-bug evidence): the framing decoder trusts any claimed length —
whatever bound one would configure, a frame whose claimed length exceeds it
is still buffered and yielded, and the decoder has no error outcome at
all. -/
theorem c7_no_max_frame_size (maxFrameSize n : Nat) (p : Bytes)
    (hp : p.length = n) (_hbig : maxFrameSize < n) :
    lpDecode (varintEncode n ++ p) = [p] :=
  lpDecode_single n p hp

set_option maxRecDepth 4000 in
/-- Witness for C7: a frame of claimed length 200 sails through a
would-be limit of 10. -/
theorem c7_no_max_frame_size_witness :
    ((List.replicate 200 3 : Bytes).length = 200 ∧ 10 < 200) ∧
    lpDecode (varintEncode 200 ++ List.replicate 200 3) =
      [List.replicate 200 3] :=
  ⟨⟨by simp, by decide⟩,
    c7_no_max_frame_size 10 200 (List.replicate 200 3) (by simp) (by decide)⟩

/-- C8 (counterexample): destroying a connection closes the underlying
socket, whose `close` event still fires — a valid post-destroy trace on
which `NetConn` emits the terminal `disconnected` (closed) event after the
first `destroy()` returned, contradicting "no closed event is delivered
after the first destroy". -/
theorem c8_destroy_counterexample :
    postDestroyOk [ConnEvent.appDestroy, ConnEvent.sockClose] = true ∧
    eventsAfterDestroy [ConnEvent.appDestroy, ConnEvent.sockClose] =
      [OutEvent.disconnected] ∧
    eventsAfterDestroy [ConnEvent.appDestroy, ConnEvent.sockClose] ≠ [] :=
  ⟨rfl, rfl, by decide⟩

/-- Emissions from a trace with no incoming data are all `disconnected`. -/
theorem runNetConn_all_disc : ∀ rest : List ConnEvent,
    (rest.all fun e => match e with
      | ConnEvent.sockData _ => false
      | _ => true) = true →
    ∀ e ∈ runNetConn rest, e = OutEvent.disconnected
  | [], _, e, he => by simp [runNetConn] at he
  | ev :: rest, h, e, he => by
    rw [List.all_cons, Bool.and_eq_true] at h
    rw [runNetConn, List.flatMap_cons] at he
    rcases List.mem_append.mp he with hm | hm
    · cases ev with
      | sockData bs => simp at h
      | sockClose =>
        simp only [netConnHandle, List.mem_singleton] at hm
        exact hm
      | appDestroy => simp [netConnHandle] at hm
    · exact runNetConn_all_disc rest h.2 e hm

/-- `postDestroyOk` traces only emit `disconnected` after the destroy. -/
theorem eventsAfterDestroy_all_disc : ∀ t : List ConnEvent,
    postDestroyOk t = true →
    ∀ e ∈ eventsAfterDestroy t, e = OutEvent.disconnected
  | [], _, e, he => by simp [eventsAfterDestroy] at he
  | ConnEvent.appDestroy :: rest, h, e, he =>
    runNetConn_all_disc rest (by simpa [postDestroyOk] using h) e
      (by simpa [eventsAfterDestroy] using he)
  | ConnEvent.sockData bs :: rest, h, e, he =>
    eventsAfterDestroy_all_disc rest (by simpa [postDestroyOk] using h) e
      (by simpa [eventsAfterDestroy] using he)
  | ConnEvent.sockClose :: rest, h, e, he =>
    eventsAfterDestroy_all_disc rest (by simpa [postDestroyOk] using h) e
      (by simpa [eventsAfterDestroy] using he)

/-- C8 (amended): a second `destroy()` raises no error and has no effect
beyond the first (`destroy` is idempotent on both the connection and the
channel), and after the first `destroy()` no frame or message events are
delivered — the only event that can still arrive is the single terminal
closed signal triggered by the destroyed socket's own `close`. -/
theorem c8_destroy_idempotent (s : NetConnState) (t : List ConnEvent)
    (h : postDestroyOk t = true) :
    netConnDestroy (netConnDestroy s) = netConnDestroy s ∧
    cryptoCommDestroy (cryptoCommDestroy s) = cryptoCommDestroy s ∧
    ∀ e ∈ eventsAfterDestroy t, e = OutEvent.disconnected :=
  ⟨rfl, rfl, eventsAfterDestroy_all_disc t h⟩

/-- Witness for C8's amended statement on a concrete trace. -/
theorem c8_destroy_idempotent_witness :
    postDestroyOk [ConnEvent.sockData [1], ConnEvent.appDestroy,
      ConnEvent.appDestroy, ConnEvent.sockClose] = true ∧
    (netConnDestroy (netConnDestroy ⟨false⟩) = netConnDestroy ⟨false⟩ ∧
      cryptoCommDestroy (cryptoCommDestroy ⟨false⟩) =
        cryptoCommDestroy ⟨false⟩ ∧
      ∀ e ∈ eventsAfterDestroy [ConnEvent.sockData [1], ConnEvent.appDestroy,
        ConnEvent.appDestroy, ConnEvent.sockClose],
        e = OutEvent.disconnected) :=
  ⟨by decide,
    c8_destroy_idempotent ⟨false⟩
      [ConnEvent.sockData [1], ConnEvent.appDestroy, ConnEvent.appDestroy,
        ConnEvent.sockClose] (by decide)⟩

/-- C9: when the underlying stream closes, the connection produces exactly
one terminal `disconnected` signal, as the last event, and it is forwarded
through the encrypted channel exactly once; no close means no
`disconnected` at all beforehand. -/
theorem c9_single_terminal_close (theirPk ourSk : Bytes)
    (pre : List ConnEvent) (hnc : ConnEvent.sockClose ∉ pre) :
    runNetConn (pre ++ [ConnEvent.sockClose]) =
      runNetConn pre ++ [OutEvent.disconnected] ∧
    (runNetConn (pre ++ [ConnEvent.sockClose])).count OutEvent.disconnected =
      1 ∧
    (runComm theirPk ourSk
        (runNetConn (pre ++ [ConnEvent.sockClose]))).count
      CommEvent.disconnected = 1 := by
  have h1 : runNetConn (pre ++ [ConnEvent.sockClose]) =
      runNetConn pre ++ [OutEvent.disconnected] := by
    rw [runNetConn, List.flatMap_append]
    rfl
  have h0 : (runNetConn pre).count OutEvent.disconnected = 0 :=
    List.count_eq_zero.mpr (runNetConn_no_disc pre hnc)
  refine ⟨h1, ?_, ?_⟩
  · rw [h1, List.count_append, h0]
    rfl
  · rw [runComm_count_disc, h1, List.count_append, h0]
    rfl

/-- Witness for C9 on a concrete trace of one data frame then the close. -/
theorem c9_single_terminal_close_witness :
    ConnEvent.sockClose ∉ [ConnEvent.sockData [1, 2]] ∧
    (runNetConn ([ConnEvent.sockData [1, 2]] ++ [ConnEvent.sockClose]) =
      runNetConn [ConnEvent.sockData [1, 2]] ++ [OutEvent.disconnected] ∧
    (runNetConn ([ConnEvent.sockData [1, 2]] ++
        [ConnEvent.sockClose])).count OutEvent.disconnected = 1 ∧
    (runComm [] []
        (runNetConn ([ConnEvent.sockData [1, 2]] ++
          [ConnEvent.sockClose]))).count CommEvent.disconnected = 1) :=
  ⟨by decide, c9_single_terminal_close [] [] [ConnEvent.sockData [1, 2]]
    (by decide)⟩

/-- C10 (counterexample): on a well-formed envelope whose ciphertext fails
authentication, version 1's `_onData` delivers no message event while
version 2's emits one `message` event with a `null` payload — the two
receive handlers do not agree. -/
theorem c10_two_versions_differ :
    onDataV1 (List.replicate 32 1) (List.replicate 32 0)
        (encodeEnvelopeBytes (List.replicate 16 0) (List.replicate 24 0)) =
      Except.ok [] ∧
    onDataV2 (List.replicate 32 1) (List.replicate 32 0)
        (encodeEnvelopeBytes (List.replicate 16 0) (List.replicate 24 0)) =
      Except.ok [none] ∧
    (Except.ok [] : Except RxError (List (Option Bytes))) ≠
      Except.ok [none] := by
  refine ⟨rfl, rfl, ?_⟩
  intro h
  exact List.noConfusion (Except.ok.inj h)

/-- C10 (amended): for every frame and fixed key material the two embedded
`_onData` versions either produce identical outcomes (same exception on a
malformed frame, same single message event on a successful decryption), or
the frame is one on which `BoxOpen` fails, where version 1 delivers no
event and version 2 delivers a `message` event with a `null` payload. -/
theorem c10_versions_agree_except_null (theirPk ourSk f : Bytes) :
    onDataV1 theirPk ourSk f = onDataV2 theirPk ourSk f ∨
    (onDataV1 theirPk ourSk f = Except.ok [] ∧
      onDataV2 theirPk ourSk f = Except.ok [none]) := by
  rcases hp : parseEnvelopeBytes f with _ | ⟨d, n⟩
  · left
    simp only [onDataV1, onDataV2, hp]
  · rcases hb : boxOpen (b64Decode d) (b64Decode n) theirPk ourSk with _ | m
    · right
      constructor <;> simp only [onDataV1, onDataV2, hp, hb]
    · left
      simp only [onDataV1, onDataV2, hp, hb]
